import Mathlib

/-!
Verification of the kerberos HTTP gateway core: service registry,
load-balancer strategies, retry backoff, per-target circuit breaker and
dispatcher.  Go machine integers are embedded as `Nat`/`Int` with explicit
wrap-around where the source performs `uint64`/`int64` arithmetic.
-/

set_option autoImplicit false

namespace Kerberos

/-- Modulus of Go's `uint64`. -/
def U64 : Nat := 2 ^ 64

/-- Reinterpret a `uint64` value `v` (with `v < 2^64`) as a Go `int64`,
i.e. two's-complement: values at or above `2^63` become negative.
This embeds Go's `int(u)` conversion on a 64-bit platform. -/
def int64OfUInt64 (v : Nat) : Int :=
  if v < 2 ^ 63 then (v : Int) else (v : Int) - 2 ^ 64

/-- Wrap an unbounded integer into the `int64` range, as Go's defined
two's-complement overflow of signed arithmetic does. -/
def i64wrap (x : Int) : Int :=
  ((x + 2 ^ 63) % 2 ^ 64) - 2 ^ 63

/-! ## Registry (src: internal/registry)

`Instance` is the registered-backend record.  A service's state in the
registry is its ordered list of instances; `register` is the body of
`Registry.Register` for one service (replace the first entry with a
matching ID in place, otherwise append).  `GetInstances` returns a copy
of the list, which an immutable Lean list models as the list itself. -/

structure Instance where
  id : String
  addr : String
  weight : Int
deriving DecidableEq

namespace registry

/-- Go `Registry.Register` restricted to one service's instance list:
scan for an entry with the same `ID`; if found, overwrite it at its
position and stop; otherwise append the new instance. -/
def register (insts : List Instance) (inst : Instance) : List Instance :=
  match insts with
  | [] => [inst]
  | x :: rest => if x.id = inst.id then inst :: rest else x :: register rest inst

/-- The IDs occurring in an instance list, in order. -/
def idsOf (l : List Instance) : List String := l.map (fun x => x.id)

end registry

/-! ## Retry policy (src: internal/retry) -/

namespace retry

/-- Go `retry.Config`.  Durations are `int64` nanosecond counts. -/
structure Config where
  MaxRetries : Int
  InitialBackoff : Int
  MaxBackoff : Int
deriving DecidableEq

/-- Go `retry.DefaultConfig`: 3 retries, 100ms initial, 2s cap. -/
def DefaultConfig : Config :=
  { MaxRetries := 3, InitialBackoff := 100000000, MaxBackoff := 2000000000 }

/-- Go `Config.Backoff`.  The source computes
`InitialBackoff * time.Duration(math.Pow(2, float64(attempt-1)))` and caps the
result at `MaxBackoff`.  For `1 ≤ attempt ≤ 63` the float64 power and the
float→int64 conversion are exact, so the embedding uses the exact power of
two; the `int64` multiplication wraps on overflow exactly as in Go
(signed overflow is defined two's-complement wrap-around). -/
def Backoff (c : Config) (attempt : Int) : Int :=
  if attempt ≤ 0 then 0
  else
    let d := i64wrap (c.InitialBackoff * (2 : Int) ^ (attempt - 1).toNat)
    if d > c.MaxBackoff then c.MaxBackoff else d

end retry

/-! ## Balancer (src: internal/balancer)

The balancer keeps, for every service, a lazily created `uint64` counter
that both round-robin strategies share.  We model one service: the counter
is a `Nat` below `2^64`, threaded explicitly.  `rand.Intn` draws are
supplied as an input (`rand`), reduced modulo the bound as `Intn` produces
a uniform value in `[0, bound)`. -/

namespace balancer

/-- Go `balancer.Strategy` constants. -/
inductive Strategy where
  | roundRobin
  | random
  | weightedRoundRobin
  | weightedRandom
  | ipHash
deriving DecidableEq

/-- Model of the incoming `*http.Request` as the balancer and the
circuit-breaker client consume it: method, URL path and raw query, the
`X-Forwarded-For` header value (`""` when absent, as `Header.Get`
reports), the peer address, the remaining headers, and the body bytes
(`none` for a nil body). -/
structure Request where
  method : String
  path : String
  rawQuery : String
  xff : String
  remoteAddr : String
  header : List (String × String)
  body : Option (List Nat)
deriving DecidableEq

/-- Go `hasValidWeights`: false as soon as one instance has weight < 1. -/
def hasValidWeights (insts : List Instance) : Bool :=
  insts.all (fun i => decide (1 ≤ i.weight))

/-- Go `selectRoundRobin` at counter state `c`: atomically increment the
`uint64` counter to `n`, then index by `int(n-1) % len(instances)`.
Returns the new counter and the pick; a negative index (possible only
after `2^64` increments, where Go would panic) yields `none`. -/
def selectRoundRobin (c : Nat) (insts : List Instance) : Nat × Option Instance :=
  let n := (c + 1) % U64
  let i := Int.tmod (int64OfUInt64 ((n + U64 - 1) % U64)) (insts.length : Int)
  (n, if i < 0 then none else insts.get? i.toNat)

/-- The subtraction loop of `selectWeightedRoundRobin` and
`selectWeightedRandom`: walk the instances, subtracting each weight from
`slot`; the instance whose subtraction crosses below zero wins. -/
def subWeights : List Instance → Int → Option Instance
  | [], _ => none
  | i :: rest, slot =>
      if slot - i.weight < 0 then some i else subWeights rest (slot - i.weight)

/-- The pick performed for slot value `slot`: the subtraction loop, with
the source's fallback `return &instances[len(instances)-1]` after a full
pass. -/
def wpick (insts : List Instance) (slot : Int) : Option Instance :=
  match subWeights insts slot with
  | some x => some x
  | none => insts.getLast?

/-- The weight total `Σ weight` that the weighted strategies accumulate
(`total += inst.Weight` over the snapshot). -/
def weightTotal (insts : List Instance) : Int :=
  (insts.map (fun i => i.weight)).sum

/-- Go `selectWeightedRoundRobin` at counter state `c`: sum the weights
(`int` arithmetic, wrapping), return the first instance if the total is
not positive (without touching the counter), otherwise increment the
shared counter to `n`, compute `slot := int((n-1) % uint64(total))` and
run the subtraction loop. -/
def selectWeightedRoundRobin (c : Nat) (insts : List Instance) : Nat × Option Instance :=
  let total := i64wrap (weightTotal insts)
  if total ≤ 0 then (c, insts.head?)
  else
    let n := (c + 1) % U64
    let slot := int64OfUInt64 (((n + U64 - 1) % U64) % total.toNat)
    (n, wpick insts slot)

/-- Go `selectRandom`: uniform index `rand.Intn(len(instances))`; the
PRNG draw is an input, reduced modulo the length. -/
def selectRandom (rand : Nat) (insts : List Instance) : Option Instance :=
  insts.get? (rand % insts.length)

/-- Go `selectWeightedRandom`: draw `r` in `[0, total)` and run the same
subtraction loop. -/
def selectWeightedRandom (rand : Nat) (insts : List Instance) : Option Instance :=
  let total := i64wrap (weightTotal insts)
  if total ≤ 0 then insts.head?
  else wpick insts ((rand % total.toNat : Nat) : Int)

/-- Go `trimIP`: strip leading and trailing spaces and tabs. -/
def trimIP (s : String) : String :=
  let sp := fun c : Char => c = ' ' || c = '\t'
  String.mk (((s.data.dropWhile sp).reverse.dropWhile sp).reverse)

/-- Model of Go stdlib `net.SplitHostPort`, host component only: the part
before the last colon when a colon is present, the empty string (the
error case) otherwise. -/
def splitHostPortHost (s : String) : String :=
  if s.data.contains ':' then
    String.mk (((s.data.reverse.dropWhile (fun c => c ≠ ':')).drop 1).reverse)
  else String.mk []

/-- Go `clientIP`: a nil request yields `""`; else the first
comma-separated `X-Forwarded-For` token trimmed, else the host of the
peer address, else the raw peer address. -/
def clientIP (req : Option Request) : String :=
  match req with
  | none => String.mk []
  | some r =>
      if r.xff ≠ String.mk [] then
        trimIP (String.mk (r.xff.data.takeWhile (fun c => c ≠ ',')))
      else
        let host := splitHostPortHost r.remoteAddr
        if host ≠ String.mk [] then host else r.remoteAddr

/-- The UTF-8 encoding of one character, as byte values. -/
def utf8Bytes (c : Char) : List Nat :=
  let n := c.toNat
  if n < 0x80 then [n]
  else if n < 0x800 then
    [0xC0 ||| (n >>> 6), 0x80 ||| (n &&& 0x3F)]
  else if n < 0x10000 then
    [0xE0 ||| (n >>> 12), 0x80 ||| ((n >>> 6) &&& 0x3F), 0x80 ||| (n &&& 0x3F)]
  else
    [0xF0 ||| (n >>> 18), 0x80 ||| ((n >>> 12) &&& 0x3F),
     0x80 ||| ((n >>> 6) &&& 0x3F), 0x80 ||| (n &&& 0x3F)]

/-- The UTF-8 byte sequence of a string. -/
def strBytes (s : String) : List Nat :=
  s.data.flatMap utf8Bytes

/-- Go stdlib FNV-1a 32-bit hash over the UTF-8 bytes of a string:
`h := 2166136261; for each byte b: h = (h XOR b) * 16777619 mod 2^32`. -/
def fnv32a (s : String) : Nat :=
  (strBytes s).foldl (fun h b => ((h ^^^ b) * 16777619) % 2 ^ 32) 2166136261

/-- Go `selectIPHash`: hash the client IP, index by
`int(hash % uint32(len(instances)))`, negate the index if negative (the
defensive branch under scrutiny in the source), and return that element.
`uint32(len)` reduces the length modulo `2^32`; a zero divisor would be a
Go runtime panic, modelled as `none`. -/
def selectIPHash (insts : List Instance) (req : Option Request) : Option Instance :=
  let hash := fnv32a (clientIP req)
  let m := insts.length % 2 ^ 32
  if m = 0 then none
  else
    let i := int64OfUInt64 (hash % m)
    let i := if i < 0 then -i else i
    insts.get? i.toNat

/-- Go `Balancer.Select` for one service: take the registry snapshot
(`insts`), return "no instance" when it is empty, else dispatch on the
strategy; the weighted strategies fall back to their unweighted
counterparts when some weight is below 1; the default branch returns the
first instance.  Returns the new shared counter and the pick. -/
def Select (strategy : Strategy) (c : Nat) (rand : Nat) (insts : List Instance)
    (req : Option Request) : Nat × Option Instance :=
  if insts.length = 0 then (c, none)
  else
    match strategy with
    | .roundRobin => selectRoundRobin c insts
    | .random => (c, selectRandom rand insts)
    | .weightedRoundRobin =>
        if hasValidWeights insts then selectWeightedRoundRobin c insts
        else selectRoundRobin c insts
    | .weightedRandom =>
        if hasValidWeights insts then (c, selectWeightedRandom rand insts)
        else (c, selectRandom rand insts)
    | .ipHash => (c, selectIPHash insts req)

/-- `m` consecutive `Select` calls on an unchanged snapshot, threading
the per-service counter from `c`; the list of picks in call order. -/
def SelectN (strategy : Strategy) (rand : Nat) (insts : List Instance)
    (req : Option Request) : Nat → Nat → List (Option Instance)
  | _, 0 => []
  | c, m + 1 =>
      let r := Select strategy c rand insts req
      r.2 :: SelectN strategy rand insts req r.1 m

/-- The block sequence of a full weighted round-robin cycle: each
instance repeated `weight` times, in snapshot order. -/
def wBlocks (insts : List Instance) : List (Option Instance) :=
  insts.flatMap (fun i => List.replicate i.weight.toNat (some i))

end balancer

/-! ## Circuit-breaker client (src: internal/circuitbreaker) -/

/-- Model of `*http.Response` as the core handles it: status code and
body bytes (the synthesized 503 body is the empty byte sequence wrapped
closable by `io.NopCloser`). -/
structure HTTPResponse where
  statusCode : Nat
  body : List Nat
deriving DecidableEq

namespace circuitbreaker

/-- Minimal model of a parsed `net/url.URL` for bases of the shape
`scheme://host[/path]`, which every normalized base has. -/
structure URL where
  scheme : String
  host : String
  path : String
  rawQuery : String
deriving DecidableEq

/-- Go `strings.HasPrefix s p`, on the character lists. -/
def hasPrefix (s p : String) : Bool :=
  p.data.isPrefixOf s.data

/-- Go `strings.TrimSuffix base "/"`: remove one trailing slash if
present. -/
def trimSuffixSlash (s : String) : String :=
  if s.data.getLast? = some '/' then String.mk s.data.dropLast else s

/-- The base-normalization prelude of `buildForwardURL`: trim one
trailing slash; prepend `http://` when neither `http://` nor `https://`
prefixes the base. -/
def normalizeBase (base : String) : String :=
  let base := trimSuffixSlash base
  if hasPrefix base (String.mk ['h','t','t','p',':','/','/'])
      || hasPrefix base (String.mk ['h','t','t','p','s',':','/','/']) then base
  else String.mk ['h','t','t','p',':','/','/'] ++ base

/-- Model of Go stdlib `url.Parse` restricted to normalized bases: an
`http://` or `https://` scheme followed by a host (up to the first
slash) and an optional path; anything else is a parse error (`none`).
Normalized bases always carry one of the two schemes. -/
def parseURL (s : String) : Option URL :=
  let cs := s.data
  if (String.mk ['h','t','t','p',':','/','/']).data.isPrefixOf cs then
    let rest := cs.drop 7
    some { scheme := String.mk ['h','t','t','p']
           host := String.mk (rest.takeWhile (fun c => c ≠ '/'))
           path := String.mk (rest.dropWhile (fun c => c ≠ '/'))
           rawQuery := String.mk [] }
  else if (String.mk ['h','t','t','p','s',':','/','/']).data.isPrefixOf cs then
    let rest := cs.drop 8
    some { scheme := String.mk ['h','t','t','p','s']
           host := String.mk (rest.takeWhile (fun c => c ≠ '/'))
           path := String.mk (rest.dropWhile (fun c => c ≠ '/'))
           rawQuery := String.mk [] }
  else none

/-- Model of `url.URL.String()` on the URLs above: scheme, `://`, host,
path, and `?query` when the query is non-empty. -/
def renderURL (u : URL) : String :=
  u.scheme ++ String.mk [':', '/', '/'] ++ u.host ++ u.path ++
    (if u.rawQuery = String.mk [] then String.mk [] else String.mk ['?'] ++ u.rawQuery)

/-- Go `buildForwardURL`: normalize the base, parse it, overwrite path
and raw query from the incoming request, render.  `none` is the error
return of the source. -/
def buildForwardURL (base path rawQuery : String) : Option String :=
  match parseURL (normalizeBase base) with
  | none => none
  | some u => some (renderURL { u with path := path, rawQuery := rawQuery })

/-- One outgoing request as `doWithRetry` constructs it per attempt:
forward URL, the incoming method, the copied headers, and a fresh reader
over the buffered body bytes (`none` when the buffer is empty). -/
structure SentRequest where
  url : String
  method : String
  header : List (String × String)
  body : Option (List Nat)
deriving DecidableEq

/-- The attempt loop of `doWithRetry`.  `client n s` is the transport
outcome of executing sent request `s` as attempt number `n` (`none` is a
transport error).  Returns the final outcome (`none` = `lastErr`
returned after the loop) and the chronological list of requests handed
to the underlying HTTP client.  The backoff sleep between attempts has
no observable effect here and is omitted. -/
def attemptLoop (client : Nat → SentRequest → Option HTTPResponse) (url : String)
    (req : balancer.Request) (bodyBytes : List Nat) :
    Nat → Nat → Option HTTPResponse × List SentRequest
  | _, 0 => (none, [])
  | attempt, rem + 1 =>
      let sent : SentRequest :=
        { url := url, method := req.method, header := req.header
          body := if bodyBytes.length > 0 then some bodyBytes else none }
      match client attempt sent with
      | some resp => (some resp, [sent])
      | none =>
          let r := attemptLoop client url req bodyBytes (attempt + 1) rem
          (r.1, sent :: r.2)

/-- Go `doWithRetry`: build the forward URL (propagating its error),
drain the request body once into `bodyBytes` before the loop, then run
attempts `0 .. maxRetries` inclusive, each with a fresh reader over the
same buffered bytes. -/
def doWithRetry (client : Nat → SentRequest → Option HTTPResponse) (maxRetries : Nat)
    (target : String) (req : balancer.Request) :
    Option HTTPResponse × List SentRequest :=
  match buildForwardURL target req.path req.rawQuery with
  | none => (none, [])
  | some url =>
      let bodyBytes := match req.body with | none => [] | some bs => bs
      attemptLoop client url req bodyBytes 0 (maxRetries + 1)

/-- Counters of one breaker, as in the breaker library's `Counts`. -/
structure Counts where
  requests : Nat
  totalSuccesses : Nat
  totalFailures : Nat
  consecutiveSuccesses : Nat
  consecutiveFailures : Nat
deriving DecidableEq

def Counts.zero : Counts := ⟨0, 0, 0, 0, 0⟩

/-- The three breaker states. -/
inductive BState where
  | closed
  | opened
  | halfOpen
deriving DecidableEq

/-- Modelled from the spec: the per-target three-state breaker (the
`gobreaker.CircuitBreaker` this repository instantiates; its state
machine is not under src/).  State, counters and the two timestamps of
§4.4; times are integer seconds.  The parameters are the ones `getBreaker`
hardcodes: probe budget 3, counter window 60s, open timeout 30s, trip on
5 consecutive failures. -/
structure Breaker where
  state : BState
  counts : Counts
  windowStart : Nat
  openedAt : Nat
deriving DecidableEq

/-- The hardcoded trip condition: `counts.ConsecutiveFailures >= 5`. -/
def readyToTrip (c : Counts) : Bool :=
  decide (5 ≤ c.consecutiveFailures)

/-- Modelled from the spec: time-driven transitions observed at the
start of a call.  Closed resets its counters when the 60s window has
elapsed; Open moves to HalfOpen with reset counters after the 30s
timeout. -/
def refresh (b : Breaker) (now : Nat) : Breaker :=
  match b.state with
  | .closed =>
      if b.windowStart + 60 ≤ now then
        { b with counts := Counts.zero, windowStart := now }
      else b
  | .opened =>
      if b.openedAt + 30 ≤ now then
        { b with state := .halfOpen, counts := Counts.zero }
      else b
  | .halfOpen => b

inductive BreakerErr where
  | breakerOpen
  | tooManyRequests
deriving DecidableEq

/-- Modelled from the spec: admission control.  Open rejects with the
`breakerOpen` sentinel; HalfOpen admits at most 3 requests and rejects
the excess with `tooManyRequests`; admitted requests are counted. -/
def beforeRequest (b : Breaker) (now : Nat) : Breaker × Option BreakerErr :=
  let b := refresh b now
  match b.state with
  | .opened => (b, some .breakerOpen)
  | .halfOpen =>
      if 3 ≤ b.counts.requests then (b, some .tooManyRequests)
      else ({ b with counts := { b.counts with requests := b.counts.requests + 1 } }, none)
  | .closed =>
      ({ b with counts := { b.counts with requests := b.counts.requests + 1 } }, none)

/-- Modelled from the spec: bookkeeping after a successful forwarder
call; HalfOpen closes after 3 consecutive successes. -/
def onSuccess (b : Breaker) (now : Nat) : Breaker :=
  let c := { b.counts with
             totalSuccesses := b.counts.totalSuccesses + 1
             consecutiveSuccesses := b.counts.consecutiveSuccesses + 1
             consecutiveFailures := 0 }
  match b.state with
  | .halfOpen =>
      if 3 ≤ c.consecutiveSuccesses then
        { b with state := .closed, counts := Counts.zero, windowStart := now }
      else { b with counts := c }
  | _ => { b with counts := c }

/-- Modelled from the spec: bookkeeping after a failed forwarder call
(any non-nil error); Closed trips to Open when `readyToTrip` holds,
HalfOpen reopens immediately, recording `openedAt`. -/
def onFailure (b : Breaker) (now : Nat) : Breaker :=
  let c := { b.counts with
             totalFailures := b.counts.totalFailures + 1
             consecutiveFailures := b.counts.consecutiveFailures + 1
             consecutiveSuccesses := 0 }
  match b.state with
  | .closed =>
      if readyToTrip c then
        { b with state := .opened, counts := Counts.zero, openedAt := now }
      else { b with counts := c }
  | .halfOpen => { b with state := .opened, counts := Counts.zero, openedAt := now }
  | .opened => { b with counts := c }

/-- One `CircuitBreaker.Do` call against one target's breaker (repeated
`Do` calls for the same target reach the same breaker through
`getBreaker`).  `forwarderFails` is whether the retry-wrapped forwarder
ends in a non-nil error.  Returns the new breaker state, whether `Do`
returned an error, and whether the underlying HTTP client was invoked
(i.e. the breaker admitted the call). -/
def breakerDo (b : Breaker) (now : Nat) (forwarderFails : Bool) :
    Breaker × Bool × Bool :=
  match beforeRequest b now with
  | (b1, some _) => (b1, true, false)
  | (b1, none) =>
      if forwarderFails then (onFailure b1 now, true, true)
      else (onSuccess b1 now, false, true)

/-- A breaker as `getBreaker` first creates it: Closed, zero counters,
window starting at creation time. -/
def freshBreaker (t0 : Nat) : Breaker :=
  { state := .closed, counts := Counts.zero, windowStart := t0, openedAt := 0 }

/-- Thread a sequence of failing calls at the given times through one
breaker. -/
def runFailures (b : Breaker) : List Nat → Breaker
  | [] => b
  | t :: ts => runFailures (breakerDo b t true).1 ts

/-- Go `circuitbreaker.Settings`: construction-time knobs of the client.
`ReadyToTrip` is an arbitrary predicate on counts. -/
structure Settings where
  MaxRequests : Nat
  Interval : Int
  Timeout : Int
  ReadyToTrip : Counts → Bool
  Retry : retry.Config

/-- Go `DefaultSettings`: probe budget 3, 60s window, 30s timeout, trip
on 5 consecutive failures; `Retry` is left at the zero value. -/
def DefaultSettings : Settings :=
  { MaxRequests := 3, Interval := 60, Timeout := 30
    ReadyToTrip := fun c => decide (5 ≤ c.consecutiveFailures)
    Retry := { MaxRetries := 0, InitialBackoff := 0, MaxBackoff := 0 } }

/-- Go `circuitbreaker.Client`: the state `New` actually stores — the
HTTP client (abstracted over its type) and the retry configuration.
The breakers map starts empty and is filled lazily by `getBreaker`. -/
structure Client (H : Type) where
  httpClient : H
  retry : retry.Config
deriving DecidableEq

/-- Go `circuitbreaker.New`: keeps only the HTTP client and `s.Retry`;
every other `Settings` field is dropped.  (The source also substitutes
`http.DefaultClient` for a nil client, irrelevant here.) -/
def New {H : Type} (h : H) (s : Settings) : Client H :=
  { httpClient := h, retry := s.Retry }

/-- The construction parameters of one breaker, as data. -/
structure BreakerSettings where
  MaxRequests : Nat
  Interval : Int
  Timeout : Int
  tripThreshold : Nat
deriving DecidableEq

/-- Go `getBreaker`: the parameters of the breaker created (or already
present) for a target are the hardcoded literals `MaxRequests: 3`,
`Interval: 60`, `Timeout: 30` and the closure tripping on
`ConsecutiveFailures >= 5` — independent of the client and the target. -/
def getBreakerSettings {H : Type} (_ : Client H) (_ : String) : BreakerSettings :=
  { MaxRequests := 3, Interval := 60, Timeout := 30, tripThreshold := 5 }

end circuitbreaker

/-! ## Dispatcher (src: internal/dispatcher) -/

namespace dispatcher

/-- Go `Dispatcher.Forward` for one service: ask the balancer for an
instance over the current snapshot; when none, synthesize a 503 response
with an empty closable body and a nil error; otherwise return exactly
`CircuitBreaker.Do(instance.Addr, r)`.  `doFn` is `Do`, returning Go's
`(response, error)` pair with an abstract error type, passed through
uninterpreted. -/
def Forward {E : Type} (doFn : String → balancer.Request → Option HTTPResponse × Option E)
    (strategy : balancer.Strategy) (c rand : Nat) (insts : List Instance)
    (req : balancer.Request) : Option HTTPResponse × Option E :=
  match (balancer.Select strategy c rand insts (some req)).2 with
  | none => (some { statusCode := 503, body := [] }, none)
  | some inst => doFn inst.addr req

end dispatcher

/-! ## Supporting lemmas -/

theorem i64wrap_eq_of_bounds (x : Int) (h0 : -(2 ^ 63) ≤ x) (h1 : x < 2 ^ 63) :
    i64wrap x = x := by
  unfold i64wrap
  have hnn : 0 ≤ x + 2 ^ 63 := by omega
  have hlt : x + 2 ^ 63 < 2 ^ 64 := by omega
  rw [Int.emod_eq_of_lt hnn hlt]
  omega

theorem int64OfUInt64_of_lt (v : Nat) (h : v < 2 ^ 63) :
    int64OfUInt64 v = (v : Int) := by
  unfold int64OfUInt64
  rw [if_pos h]

/-! ## Claim C5 — retry backoff -/

/-- C5 (code bug).  The claim (and the source's own doc comment, "capped
at MaxBackoff") promise `Backoff(n) = min(InitialBackoff · 2^(n−1),
MaxBackoff)` for every `n ≥ 1`, but `InitialBackoff *
time.Duration(math.Pow(2, attempt-1))` is `int64` arithmetic: with the
default config (100ms initial, 2s cap) attempt 38 makes `100ms · 2^37`
overflow `int64`, the wrapped product is negative, the cap comparison
fails, and `Backoff` returns a negative duration instead of
`MaxBackoff`. -/
theorem c5_backoff_overflow_bug :
    retry.Backoff retry.DefaultConfig 38 = -4702848726509551616
    ∧ retry.Backoff retry.DefaultConfig 38
        ≠ min (100000000 * 2 ^ 37) 2000000000
    ∧ (min (100000000 * 2 ^ 37) 2000000000 : Int) = 2000000000 := by
  refine ⟨by decide, by decide, by decide⟩

/-! ## Claim C6 — forward-URL base normalization -/

/-- C6.  For any fixed request path and raw query, the bases
`localhost:8081`, `http://localhost:8081` and `http://localhost:8081/`
produce the same forward URL: one trailing slash is trimmed, `http://`
is prepended when no scheme is present, and path and query are
overwritten from the incoming request. -/
theorem c6_base_forms_equal (path q : String) :
    circuitbreaker.buildForwardURL (r"localhost:8081") path q
        = circuitbreaker.buildForwardURL (r"http://localhost:8081") path q
    ∧ circuitbreaker.buildForwardURL (r"http://localhost:8081/") path q
        = circuitbreaker.buildForwardURL (r"http://localhost:8081") path q
    ∧ circuitbreaker.buildForwardURL (r"http://localhost:8081") path q
        = some (circuitbreaker.renderURL
            { scheme := r"http", host := r"localhost:8081", path := path, rawQuery := q }) :=
  ⟨rfl, rfl, rfl⟩

/-! ## Claim C10 — breaker settings are ignored -/

open circuitbreaker in
/-- C10.  `New` retains only the HTTP client and `Settings.Retry`, and
`getBreaker` builds every per-target breaker from the hardcoded
parameters `MaxRequests 3`, `Interval 60`, `Timeout 30` and trip on five
consecutive failures; hence two `Settings` with equal `Retry` yield
equal clients, and the remaining `Settings` fields have no effect. -/
theorem c10_settings_ignored {H : Type} (h : H) (s s2 : Settings)
    (hr : s.Retry = s2.Retry) :
    New h s = New h s2
    ∧ ∀ target, getBreakerSettings (New h s) target
        = { MaxRequests := 3, Interval := 60, Timeout := 30, tripThreshold := 5 } := by
  constructor
  · unfold New
    rw [hr]
  · intro _
    rfl

open circuitbreaker in
theorem c10_witness :
    New () DefaultSettings
        = New () { DefaultSettings with
                   MaxRequests := 99, Interval := 1, Timeout := 1
                   ReadyToTrip := fun _ => true }
    ∧ getBreakerSettings (New () DefaultSettings) (String.mk [])
        = { MaxRequests := 3, Interval := 60, Timeout := 30, tripThreshold := 5 } :=
  ⟨(c10_settings_ignored () _ _ rfl).1, (c10_settings_ignored () _ _ rfl).2 _⟩

/-! ## Claim C7 — dispatcher forwarding -/

open balancer in
/-- C7.  When the balancer yields no instance, `Forward` returns a
synthesized 503 response with an empty closable body and a nil error;
otherwise it returns exactly `CircuitBreaker.Do` on the selected
instance's address and the request, errors passed through
uninterpreted. -/
theorem c7_forward_dispatch {E : Type}
    (doFn : String → Request → Option HTTPResponse × Option E)
    (strategy : Strategy) (c rand : Nat) (req : Request) :
    (dispatcher.Forward doFn strategy c rand [] req
        = (some { statusCode := 503, body := [] }, none))
    ∧ ∀ (insts : List Instance) (inst : Instance),
        (Select strategy c rand insts (some req)).2 = some inst →
          dispatcher.Forward doFn strategy c rand insts req = doFn inst.addr req := by
  constructor
  · rfl
  · intro insts inst h
    unfold dispatcher.Forward
    rw [h]

open balancer in
theorem c7_witness :
    (dispatcher.Forward (fun _ _ => (none, some 7)) Strategy.roundRobin 0 0 []
        { method := r"GET", path := r"/test", rawQuery := String.mk []
          xff := String.mk [], remoteAddr := String.mk [], header := [], body := none }
      = (some { statusCode := 503, body := [] }, none))
    ∧ (dispatcher.Forward (fun _ _ => (none, some 7)) Strategy.roundRobin 0 0
        [{ id := r"a", addr := r"http://a", weight := 0 }]
        { method := r"GET", path := r"/test", rawQuery := String.mk []
          xff := String.mk [], remoteAddr := String.mk [], header := [], body := none }
      = (none, some 7)) := by
  have h := c7_forward_dispatch (E := Nat) (fun _ _ => (none, some 7)) Strategy.roundRobin 0 0
    { method := r"GET", path := r"/test", rawQuery := String.mk []
      xff := String.mk [], remoteAddr := String.mk [], header := [], body := none }
  exact ⟨h.1, h.2 [{ id := r"a", addr := r"http://a", weight := 0 }]
    { id := r"a", addr := r"http://a", weight := 0 } (by decide)⟩

/-! ## Claim C9 — IP-hash index safety -/

open balancer in
/-- C9.  For every non-empty snapshot (of realistic length) and every
request, the index `int(hash % uint32(len(instances)))` is non-negative,
so the defensive negation branch is unreachable and `selectIPHash`
returns the snapshot element at `hash mod len`, a valid element. -/
theorem c9_iphash_index_safe (insts : List Instance) (req : Option Request)
    (hne : insts ≠ []) (hlen : insts.length < 2 ^ 32) :
    0 ≤ int64OfUInt64 (fnv32a (clientIP req) % (insts.length % 2 ^ 32))
    ∧ selectIPHash insts req = insts.get? (fnv32a (clientIP req) % insts.length)
    ∧ (insts.get? (fnv32a (clientIP req) % insts.length)).isSome := by
  have hpos : 0 < insts.length := List.length_pos.mpr hne
  have hm : insts.length % 2 ^ 32 = insts.length := Nat.mod_eq_of_lt hlen
  have hidx : fnv32a (clientIP req) % insts.length < insts.length :=
    Nat.mod_lt _ hpos
  have hsmall : fnv32a (clientIP req) % (insts.length % 2 ^ 32) < 2 ^ 63 := by
    rw [hm]
    omega
  have hcast := int64OfUInt64_of_lt _ hsmall
  have hnn : ¬ ((↑(fnv32a (clientIP req) % insts.length) : Int) < 0) := by omega
  refine ⟨by rw [hcast]; exact Int.ofNat_nonneg _, ?_, ?_⟩
  · unfold selectIPHash
    rw [hm] at hcast ⊢
    simp only [hcast, if_neg (show ¬ insts.length = 0 by omega), if_neg hnn]
    simp only [List.get?_eq_getElem?]
    congr 1
  · rw [List.get?_eq_get hidx]
    rfl

open balancer in
theorem c9_witness :
    0 ≤ int64OfUInt64 (fnv32a (clientIP none) % (2 % 2 ^ 32))
    ∧ selectIPHash
        [{ id := r"a", addr := r"http://a", weight := 0 },
         { id := r"b", addr := r"http://b", weight := 0 }] none
      = some { id := r"b", addr := r"http://b", weight := 0 } := by
  have h := c9_iphash_index_safe
    [{ id := r"a", addr := r"http://a", weight := 0 },
     { id := r"b", addr := r"http://b", weight := 0 }] none
    (by decide) (by norm_num)
  refine ⟨h.1, ?_⟩
  rw [h.2.1]
  decide

/-! ## Claim C2 — round-robin periodicity -/

namespace balancer

theorem selectRoundRobin_step (c : Nat) (insts : List Instance) (hc : c < 2 ^ 63) :
    selectRoundRobin c insts = (c + 1, insts.get? (c % insts.length)) := by
  have hU : c + 1 < U64 := by unfold U64; omega
  have hn : (c + 1) % U64 = c + 1 := Nat.mod_eq_of_lt hU
  have h2 : (c + 1 + U64 - 1) % U64 = c := by
    unfold U64 at *
    omega
  have htm : Int.tmod (c : Int) (insts.length : Int)
      = ((c % insts.length : Nat) : Int) := by
    rw [Int.ofNat_tmod]
  simp only [selectRoundRobin, hn, h2, int64OfUInt64_of_lt c hc, htm]
  rw [if_neg (by omega)]
  congr 1

theorem select_roundRobin_step (c rand : Nat) (insts : List Instance)
    (req : Option Request) (hne : insts ≠ []) (hc : c < 2 ^ 63) :
    Select .roundRobin c rand insts req = (c + 1, insts.get? (c % insts.length)) := by
  unfold Select
  rw [if_neg (by simp [hne])]
  exact selectRoundRobin_step c insts hc

theorem selectN_roundRobin_trace (insts : List Instance) (rand : Nat)
    (req : Option Request) (hne : insts ≠ []) :
    ∀ (m c0 : Nat), c0 + m ≤ 2 ^ 63 →
      SelectN .roundRobin rand insts req c0 m
        = (List.range m).map (fun j => insts.get? ((c0 + j) % insts.length)) := by
  intro m
  induction m with
  | zero => intro c0 _; rfl
  | succ k ih =>
      intro c0 hc
      have hstep := select_roundRobin_step c0 rand insts req hne (by omega)
      have hcons : SelectN .roundRobin rand insts req c0 (k + 1)
          = insts.get? (c0 % insts.length)
              :: SelectN .roundRobin rand insts req (c0 + 1) k := by
        simp only [SelectN, hstep]
      rw [hcons, ih (c0 + 1) (by omega)]
      rw [List.range_succ_eq_map, List.map_cons, List.map_map]
      simp only [Nat.add_zero]
      congr 1
      apply List.map_congr_left
      intro j _
      simp only [Function.comp]
      congr 2
      omega

end balancer

open balancer in
/-- C2.  With a fresh per-service counter and no registry mutation,
consecutive `Select` calls under RoundRobin return the instances at
indices `0, 1, …, k−1, 0, 1, …` in insertion order, and each call picks
the index `(counter − 1) mod len(snapshot)` where `counter` is the
per-service 64-bit counter after its atomic increment (bounded here by
`2^63`, below which Go's `int(n-1)` conversion is exact). -/
theorem c2_roundRobin_periodicity (insts : List Instance) (rand : Nat)
    (req : Option Request) (hne : insts ≠ []) :
    (∀ m, m ≤ 2 ^ 63 →
      SelectN .roundRobin rand insts req 0 m
        = (List.range m).map (fun j => insts.get? (j % insts.length)))
    ∧ (∀ c, c < 2 ^ 63 →
      Select .roundRobin c rand insts req
        = (c + 1, insts.get? ((c + 1 - 1) % insts.length))) := by
  constructor
  · intro m hm
    rw [selectN_roundRobin_trace insts rand req hne m 0 (by omega)]
    apply List.map_congr_left
    intro j _
    simp
  · intro c hc
    rw [select_roundRobin_step c rand insts req hne hc]
    simp

open balancer in
theorem c2_witness :
    SelectN .roundRobin 0
        [{ id := r"a", addr := r"http://a", weight := 0 },
         { id := r"b", addr := r"http://b", weight := 0 },
         { id := r"c", addr := r"http://c", weight := 0 }] none 0 7
      = [some { id := r"a", addr := r"http://a", weight := 0 },
         some { id := r"b", addr := r"http://b", weight := 0 },
         some { id := r"c", addr := r"http://c", weight := 0 },
         some { id := r"a", addr := r"http://a", weight := 0 },
         some { id := r"b", addr := r"http://b", weight := 0 },
         some { id := r"c", addr := r"http://c", weight := 0 },
         some { id := r"a", addr := r"http://a", weight := 0 }]
    ∧ Select .roundRobin 3 0
        [{ id := r"a", addr := r"http://a", weight := 0 },
         { id := r"b", addr := r"http://b", weight := 0 },
         { id := r"c", addr := r"http://c", weight := 0 }] none
      = (4, some { id := r"a", addr := r"http://a", weight := 0 }) := by
  have h := c2_roundRobin_periodicity
    [{ id := r"a", addr := r"http://a", weight := 0 },
     { id := r"b", addr := r"http://b", weight := 0 },
     { id := r"c", addr := r"http://c", weight := 0 }] 0 none (by decide)
  constructor
  · rw [h.1 7 (by norm_num)]
    decide
  · rw [h.2 3 (by norm_num)]
    decide

/-! ## Claim C8 — registry re-registration -/

namespace registry

theorem idsOf_nil : idsOf [] = [] := rfl

theorem idsOf_cons (x : Instance) (l : List Instance) :
    idsOf (x :: l) = x.id :: idsOf l := rfl

theorem register_of_not_mem (l : List Instance) (inst : Instance)
    (h : inst.id ∉ idsOf l) : register l inst = l ++ [inst] := by
  induction l with
  | nil => rfl
  | cons x rest ih =>
      rw [idsOf_cons, List.mem_cons] at h
      push_neg at h
      unfold register
      rw [if_neg (fun he => h.1 he.symm), ih h.2]
      rfl

theorem map_subst_of_not_mem (l : List Instance) (d : String) (z : Instance)
    (h : d ∉ idsOf l) : l.map (fun x => if x.id = d then z else x) = l := by
  induction l with
  | nil => rfl
  | cons x rest ih =>
      rw [idsOf_cons, List.mem_cons] at h
      push_neg at h
      rw [List.map_cons, if_neg (fun he => h.1 he.symm), ih h.2]

theorem register_of_mem (l : List Instance) (inst : Instance)
    (hnd : (idsOf l).Nodup) (h : inst.id ∈ idsOf l) :
    register l inst = l.map (fun x => if x.id = inst.id then inst else x) := by
  induction l with
  | nil => simp [idsOf_nil] at h
  | cons x rest ih =>
      rw [idsOf_cons] at h
      rw [idsOf_cons, List.nodup_cons] at hnd
      by_cases hx : x.id = inst.id
      · unfold register
        rw [if_pos hx, List.map_cons, if_pos hx]
        have hrest : inst.id ∉ idsOf rest := hx ▸ hnd.1
        rw [map_subst_of_not_mem rest inst.id inst hrest]
      · have hmem : inst.id ∈ idsOf rest := by
          rcases List.mem_cons.mp h with he | hm
          · exact absurd he.symm hx
          · exact hm
        unfold register
        rw [if_neg hx, List.map_cons, if_neg hx, ih hnd.2 hmem]

theorem mem_idsOf_register (l : List Instance) (inst : Instance) :
    inst.id ∈ idsOf (register l inst) := by
  induction l with
  | nil => simp [register, idsOf_cons]
  | cons x rest ih =>
      unfold register
      by_cases hx : x.id = inst.id
      · rw [if_pos hx, idsOf_cons]
        exact List.mem_cons_self _ _
      · rw [if_neg hx, idsOf_cons]
        exact List.mem_cons_of_mem _ ih

theorem nodup_idsOf_register (l : List Instance) (inst : Instance)
    (hnd : (idsOf l).Nodup) : (idsOf (register l inst)).Nodup := by
  by_cases h : inst.id ∈ idsOf l
  · rw [register_of_mem l inst hnd h]
    have : idsOf (l.map (fun x => if x.id = inst.id then inst else x)) = idsOf l := by
      unfold idsOf
      rw [List.map_map]
      apply List.map_congr_left
      intro x _
      by_cases hx : x.id = inst.id
      · simp [Function.comp, hx]
      · simp [Function.comp, hx]
    rw [this]
    exact hnd
  · rw [register_of_not_mem l inst h]
    unfold idsOf at h ⊢
    rw [List.map_append]
    simp only [List.map_cons, List.map_nil]
    rw [List.nodup_append]
    refine ⟨hnd, List.nodup_singleton _, ?_⟩
    intro y hy hz
    rw [List.mem_singleton] at hz
    subst hz
    exact h hy

end registry

open registry in
/-- C8.  Folding any non-empty sequence of `Register` calls that share
one ID `d` over a registry state with distinct IDs yields: exactly one
instance carrying `d`, equal to the last call's record, replaced in
place when `d` was present (all other instances and their order
untouched) and appended at the end when it was not. -/
theorem c8_register_idempotent (l0 : List Instance) (d : String)
    (sq : List Instance) (last : Instance)
    (hnd : (idsOf l0).Nodup) (hall : ∀ x ∈ sq, x.id = d)
    (hlast : sq.getLast? = some last) :
    sq.foldl register l0
      = if d ∈ idsOf l0 then l0.map (fun x => if x.id = d then last else x)
        else l0 ++ [last] := by
  induction sq generalizing l0 with
  | nil => simp at hlast
  | cons a rest ih =>
      have ha : a.id = d := hall a (List.mem_cons_self _ _)
      rw [List.foldl_cons]
      cases rest with
      | nil =>
          rw [List.foldl_nil]
          have hl : a = last := by simpa using hlast
          subst hl
          by_cases h : d ∈ idsOf l0
          · rw [if_pos h, register_of_mem l0 a hnd (ha ▸ h), ha]
          · rw [if_neg h, register_of_not_mem l0 a (ha ▸ h)]
      | cons b rest2 =>
          have hlast2 : (b :: rest2).getLast? = some last := by
            rw [← hlast]
            exact List.getLast?_cons_cons.symm
          have hres := ih (register l0 a)
            (nodup_idsOf_register l0 a hnd)
            (fun x hx => hall x (List.mem_cons_of_mem _ hx)) hlast2
          rw [hres, if_pos (ha ▸ mem_idsOf_register l0 a)]
          by_cases h : d ∈ idsOf l0
          · rw [if_pos h, register_of_mem l0 a hnd (ha ▸ h), List.map_map]
            apply List.map_congr_left
            intro x _
            by_cases hx : x.id = d
            · simp [Function.comp, hx, ha]
            · simp [Function.comp, hx, ha]
          · rw [if_neg h, register_of_not_mem l0 a (ha ▸ h), List.map_append]
            rw [map_subst_of_not_mem l0 d last h]
            simp [ha]

open registry in
theorem c8_witness :
    [({ id := r"i", addr := r"http://u1", weight := 1 } : Instance),
     { id := r"i", addr := r"http://u2", weight := 2 },
     { id := r"i", addr := r"http://u3", weight := 3 }].foldl register
      [{ id := r"a", addr := r"http://a", weight := 0 },
       { id := r"i", addr := r"http://old", weight := 9 },
       { id := r"b", addr := r"http://b", weight := 0 }]
    = [{ id := r"a", addr := r"http://a", weight := 0 },
       { id := r"i", addr := r"http://u3", weight := 3 },
       { id := r"b", addr := r"http://b", weight := 0 }] := by
  have h := c8_register_idempotent
    [{ id := r"a", addr := r"http://a", weight := 0 },
     { id := r"i", addr := r"http://old", weight := 9 },
     { id := r"b", addr := r"http://b", weight := 0 }] (r"i")
    [{ id := r"i", addr := r"http://u1", weight := 1 },
     { id := r"i", addr := r"http://u2", weight := 2 },
     { id := r"i", addr := r"http://u3", weight := 3 }]
    { id := r"i", addr := r"http://u3", weight := 3 }
    (by decide) (by decide) (by decide)
  rw [h]
  decide

/-! ## Claim C4 — body replay across retries -/

open circuitbreaker in
/-- C4.  `doWithRetry` drains the body into a buffer once before the
attempt loop (structural in the embedding: `bodyBytes` is computed
before `attemptLoop`), and every attempt sends a fresh reader over those
same bytes: when the transport fails on attempts 0 and 1 and succeeds on
attempt 2, with at least two retries allowed, the call returns the
third attempt's response and the three requests handed to the HTTP
client — the successful third one included — all carry exactly the
buffered body `B`. -/
theorem c4_body_replay (client : Nat → SentRequest → Option HTTPResponse)
    (maxRetries : Nat) (target : String) (req : balancer.Request)
    (url : String) (B : List Nat) (resp : HTTPResponse)
    (_hmethod : req.method = r"POST")
    (hbody : req.body = some B)
    (hurl : buildForwardURL target req.path req.rawQuery = some url)
    (h0 : ∀ s, client 0 s = none)
    (h1 : ∀ s, client 1 s = none)
    (h2 : ∀ s, client 2 s = some resp)
    (hmr : 2 ≤ maxRetries) :
    doWithRetry client maxRetries target req
      = (some resp, List.replicate 3
          { url := url, method := req.method, header := req.header
            body := if B.length > 0 then some B else none }) := by
  obtain ⟨k, rfl⟩ : ∃ k, maxRetries = k + 2 := ⟨maxRetries - 2, by omega⟩
  unfold doWithRetry
  rw [hurl, hbody]
  show attemptLoop client url req B 0 (k + 2 + 1) = _
  have e3 : k + 2 + 1 = (k + 1) + 1 + 1 := by omega
  rw [e3]
  simp only [attemptLoop, h0, h1, h2, List.replicate]

open circuitbreaker in
theorem c4_witness :
    doWithRetry
        (fun n _ => if n ≤ 1 then none else some { statusCode := 200, body := [111, 107] })
        2 (r"http://b")
        { method := r"POST", path := r"/p", rawQuery := String.mk []
          xff := String.mk [], remoteAddr := String.mk [], header := []
          body := some [104, 105] }
      = (some { statusCode := 200, body := [111, 107] },
         List.replicate 3
          { url := r"http://b/p", method := r"POST", header := []
            body := some [104, 105] }) := by
  have h := c4_body_replay
    (fun n _ => if n ≤ 1 then none else some { statusCode := 200, body := [111, 107] })
    2 (r"http://b")
    { method := r"POST", path := r"/p", rawQuery := String.mk []
      xff := String.mk [], remoteAddr := String.mk [], header := []
      body := some [104, 105] }
    (r"http://b/p") [104, 105] { statusCode := 200, body := [111, 107] }
    rfl rfl (by decide) (fun s => rfl) (fun s => rfl) (fun s => rfl) (by omega)
  exact h

/-! ## Claim C3 — breaker trips after five consecutive failures -/

namespace circuitbreaker

theorem closedFailStepNoTrip (cts : Counts) (ws oa now : Nat)
    (hw : now < ws + 60) (hcf : cts.consecutiveFailures + 1 < 5) :
    breakerDo ⟨.closed, cts, ws, oa⟩ now true
      = (⟨.closed, ⟨cts.requests + 1, cts.totalSuccesses, cts.totalFailures + 1,
          0, cts.consecutiveFailures + 1⟩, ws, oa⟩, true, true) := by
  simp +decide [breakerDo, beforeRequest, refresh, onFailure, readyToTrip,
    Nat.not_le.mpr hw]
  omega

theorem closedFailStepTrip (cts : Counts) (ws oa now : Nat)
    (hw : now < ws + 60) (hcf : 5 ≤ cts.consecutiveFailures + 1) :
    breakerDo ⟨.closed, cts, ws, oa⟩ now true
      = (⟨.opened, Counts.zero, ws, now⟩, true, true) := by
  simp +decide [breakerDo, beforeRequest, refresh, onFailure, readyToTrip,
    Nat.not_le.mpr hw]
  omega

theorem openFastFail (cts : Counts) (ws oa now : Nat) (f : Bool)
    (ht : now < oa + 30) :
    breakerDo ⟨.opened, cts, ws, oa⟩ now f
      = (⟨.opened, cts, ws, oa⟩, true, false) := by
  simp +decide [breakerDo, beforeRequest, refresh, Nat.not_le.mpr ht]

end circuitbreaker

open circuitbreaker in
/-- C3 (spec-modelled breaker machine).  Five consecutive `Do` calls
for one target, each ending in a non-nil forwarder error and all within
the breaker's 60-second counting window, trip the breaker to Open; the
next `Do` call for that target, arriving before the 30-second open
timeout, returns an error and the underlying HTTP client is not
invoked. -/
theorem c3_breaker_trip (t0 t1 t2 t3 t4 t5 t6 : Nat) (f : Bool)
    (h01 : t0 ≤ t1) (h12 : t1 ≤ t2) (h23 : t2 ≤ t3) (h34 : t3 ≤ t4) (h45 : t4 ≤ t5)
    (hwin : t5 < t0 + 60) (h56 : t5 ≤ t6) (hto : t6 < t5 + 30) :
    (runFailures (freshBreaker t0) [t1, t2, t3, t4, t5]).state = BState.opened
    ∧ (breakerDo (runFailures (freshBreaker t0) [t1, t2, t3, t4, t5]) t6 f).2
        = (true, false) := by
  have hge : t0 ≤ t1 := h01
  have s1 := closedFailStepNoTrip ⟨0, 0, 0, 0, 0⟩ t0 0 t1 (by omega) (by decide)
  have s2 := closedFailStepNoTrip ⟨1, 0, 1, 0, 1⟩ t0 0 t2 (by omega) (by decide)
  have s3 := closedFailStepNoTrip ⟨2, 0, 2, 0, 2⟩ t0 0 t3 (by omega) (by decide)
  have s4 := closedFailStepNoTrip ⟨3, 0, 3, 0, 3⟩ t0 0 t4 (by omega) (by decide)
  have s5 := closedFailStepTrip ⟨4, 0, 4, 0, 4⟩ t0 0 t5 (by omega) (by decide)
  have hrun : runFailures (freshBreaker t0) [t1, t2, t3, t4, t5]
      = ⟨.opened, Counts.zero, t0, t5⟩ := by
    simp only [runFailures, freshBreaker, Counts.zero, s1, s2, s3, s4, s5]
  rw [hrun]
  refine ⟨rfl, ?_⟩
  rw [openFastFail Counts.zero t0 t5 t6 f (by omega)]

open circuitbreaker in
theorem c3_witness :
    (runFailures (freshBreaker 0) [0, 1, 2, 3, 4]).state = BState.opened
    ∧ (breakerDo (runFailures (freshBreaker 0) [0, 1, 2, 3, 4]) 5 true).2
        = (true, false) :=
  c3_breaker_trip 0 0 1 2 3 4 5 true (by omega) (by omega) (by omega) (by omega)
    (by omega) (by omega) (by omega) (by omega)

/-! ## Claim C1 — weighted round-robin distribution -/

namespace balancer

theorem hasValidWeights_eq_true (insts : List Instance)
    (hw : ∀ i ∈ insts, 1 ≤ i.weight) : hasValidWeights insts = true := by
  unfold hasValidWeights
  rw [List.all_eq_true]
  intro i hi
  exact decide_eq_true (hw i hi)

theorem weightTotal_nonneg (insts : List Instance)
    (hw : ∀ i ∈ insts, 1 ≤ i.weight) : 0 ≤ weightTotal insts := by
  apply List.sum_nonneg
  intro x hx
  obtain ⟨i, hi, rfl⟩ := List.mem_map.mp hx
  exact le_trans zero_le_one (hw i hi)

theorem weightTotal_pos (insts : List Instance)
    (hw : ∀ i ∈ insts, 1 ≤ i.weight) (hne : insts ≠ []) :
    0 < weightTotal insts := by
  cases insts with
  | nil => exact absurd rfl hne
  | cons i rest =>
      have h1 : 1 ≤ i.weight := hw i (List.mem_cons_self _ _)
      have h2 : 0 ≤ weightTotal rest :=
        weightTotal_nonneg rest (fun x hx => hw x (List.mem_cons_of_mem _ hx))
      have hsplit : weightTotal (i :: rest) = i.weight + weightTotal rest := by
        unfold weightTotal
        rw [List.map_cons, List.sum_cons]
      omega

theorem weightTotal_cons_toNat (i : Instance) (rest : List Instance)
    (hwi : 0 ≤ i.weight) (hr : 0 ≤ weightTotal rest) :
    (weightTotal (i :: rest)).toNat = i.weight.toNat + (weightTotal rest).toNat := by
  have hsplit : weightTotal (i :: rest) = i.weight + weightTotal rest := by
    unfold weightTotal
    rw [List.map_cons, List.sum_cons]
  rw [hsplit, Int.toNat_add hwi hr]

theorem wrrStep (insts : List Instance) (c rand : Nat) (req : Option Request)
    (hw : ∀ i ∈ insts, 1 ≤ i.weight) (hne : insts ≠ [])
    (hsum : weightTotal insts < 2 ^ 63) (hc : c < 2 ^ 63) :
    Select .weightedRoundRobin c rand insts req
      = (c + 1, wpick insts ((c % (weightTotal insts).toNat : Nat) : Int)) := by
  have hpos := weightTotal_pos insts hw hne
  have hwr : i64wrap (weightTotal insts) = weightTotal insts :=
    i64wrap_eq_of_bounds _ (by omega) hsum
  have hTpos : 0 < (weightTotal insts).toNat := by omega
  have hn : (c + 1) % U64 = c + 1 := Nat.mod_eq_of_lt (by unfold U64; omega)
  have h2 : (c + 1 + U64 - 1) % U64 = c := by
    unfold U64
    omega
  have hslot : c % (weightTotal insts).toNat < 2 ^ 63 := by
    have := Nat.mod_lt c hTpos
    omega
  unfold Select
  rw [if_neg (by simp [hne])]
  simp only [selectWeightedRoundRobin, hasValidWeights_eq_true insts hw, if_pos,
    hwr, hn, h2, int64OfUInt64_of_lt _ hslot]
  rw [if_neg (by omega)]

theorem selectN_wrr_trace (insts : List Instance) (rand : Nat) (req : Option Request)
    (hw : ∀ i ∈ insts, 1 ≤ i.weight) (hne : insts ≠ [])
    (hsum : weightTotal insts < 2 ^ 63) :
    ∀ (m c0 : Nat), c0 + m ≤ 2 ^ 63 →
      SelectN .weightedRoundRobin rand insts req c0 m
        = (List.range m).map
            (fun j => wpick insts (((c0 + j) % (weightTotal insts).toNat : Nat) : Int)) := by
  intro m
  induction m with
  | zero => intro c0 _; rfl
  | succ k ih =>
      intro c0 hc
      have hstep := wrrStep insts c0 rand req hw hne hsum (by omega)
      have hcons : SelectN .weightedRoundRobin rand insts req c0 (k + 1)
          = wpick insts ((c0 % (weightTotal insts).toNat : Nat) : Int)
            :: SelectN .weightedRoundRobin rand insts req (c0 + 1) k := by
        simp only [SelectN, hstep]
      rw [hcons, ih (c0 + 1) (by omega)]
      rw [List.range_succ_eq_map, List.map_cons, List.map_map]
      simp only [Nat.add_zero]
      congr 1
      apply List.map_congr_left
      intro j _
      simp only [Function.comp]
      have harg : c0 + 1 + j = c0 + Nat.succ j := by omega
      rw [harg]

theorem wpick_head (i : Instance) (rest : List Instance) (s : Nat)
    (h : (s : Int) < i.weight) : wpick (i :: rest) ((s : Nat) : Int) = some i := by
  unfold wpick subWeights
  rw [if_pos (by omega)]

theorem wpick_shift (i : Instance) (rest : List Instance) (t : Nat)
    (hw : 0 ≤ i.weight) (hrest : rest ≠ []) :
    wpick (i :: rest) ((i.weight.toNat + t : Nat) : Int) = wpick rest ((t : Nat) : Int) := by
  have hcast : ((i.weight.toNat + t : Nat) : Int) - i.weight = ((t : Nat) : Int) := by
    push_cast
    rw [Int.toNat_of_nonneg hw]
    ring
  have hsub : subWeights (i :: rest) ((i.weight.toNat + t : Nat) : Int)
      = subWeights rest ((t : Nat) : Int) := by
    show (if ((i.weight.toNat + t : Nat) : Int) - i.weight < 0 then some i
          else subWeights rest (((i.weight.toNat + t : Nat) : Int) - i.weight))
        = subWeights rest ((t : Nat) : Int)
    rw [hcast, if_neg (by omega)]
  cases rest with
  | nil => exact absurd rfl hrest
  | cons b rest2 =>
      unfold wpick
      rw [hsub]
      cases hsw : subWeights (b :: rest2) ((t : Nat) : Int) with
      | some x => rfl
      | none => rw [List.getLast?_cons_cons]

theorem wpick_range_blocks : ∀ (insts : List Instance),
    (∀ i ∈ insts, 1 ≤ i.weight) →
    (List.range (weightTotal insts).toNat).map (fun s => wpick insts ((s : Nat) : Int))
      = wBlocks insts := by
  intro insts
  induction insts with
  | nil => intro _; rfl
  | cons i rest ih =>
      intro hw
      have hwi : 1 ≤ i.weight := hw i (List.mem_cons_self _ _)
      have hwr : ∀ x ∈ rest, 1 ≤ x.weight := fun x hx => hw x (List.mem_cons_of_mem _ hx)
      have hnn : 0 ≤ weightTotal rest := weightTotal_nonneg rest hwr
      have htn := weightTotal_cons_toNat i rest (by omega) hnn
      have hblk : wBlocks (i :: rest)
          = List.replicate i.weight.toNat (some i) ++ wBlocks rest := by
        simp [wBlocks]
      rw [htn, List.range_add, List.map_append, hblk]
      congr 1
      · rw [List.eq_replicate_iff]
        refine ⟨by simp, ?_⟩
        intro b hb
        obtain ⟨s, hs, rfl⟩ := List.mem_map.mp hb
        rw [List.mem_range] at hs
        exact wpick_head i rest s (Int.lt_toNat.mp hs)
      · rw [List.map_map]
        have hcg : ∀ t ∈ List.range (weightTotal rest).toNat,
            ((fun s => wpick (i :: rest) ((s : Nat) : Int))
                ∘ (fun x => i.weight.toNat + x)) t
              = wpick rest ((t : Nat) : Int) := by
          intro t ht
          cases rest with
          | nil => simp [weightTotal] at ht
          | cons b r2 =>
              exact wpick_shift i (b :: r2) t (by omega) (by simp)
        rw [List.map_congr_left hcg, ih hwr]

theorem count_wBlocks_of_not_mem (insts : List Instance) (i : Instance)
    (h : i ∉ insts) : (wBlocks insts).count (some i) = 0 := by
  rw [List.count_eq_zero]
  intro hmem
  unfold wBlocks at hmem
  obtain ⟨x, hx, hrep⟩ := List.mem_flatMap.mp hmem
  have hxi := List.eq_of_mem_replicate hrep
  rw [Option.some_inj] at hxi
  exact h (hxi ▸ hx)

theorem count_wBlocks_of_mem (insts : List Instance) (hnd : insts.Nodup)
    (i : Instance) (h : i ∈ insts) :
    (wBlocks insts).count (some i) = i.weight.toNat := by
  induction insts with
  | nil => simp at h
  | cons x rest ih =>
      rw [List.nodup_cons] at hnd
      have hsplit : wBlocks (x :: rest)
          = List.replicate x.weight.toNat (some x) ++ wBlocks rest := by
        simp [wBlocks]
      rw [hsplit, List.count_append]
      rcases List.mem_cons.mp h with rfl | hm
      · rw [List.count_replicate, if_pos (by simp),
          count_wBlocks_of_not_mem rest i hnd.1]
        omega
      · have hne2 : i ≠ x := fun he => hnd.1 (he ▸ hm)
        rw [List.count_replicate, if_neg (by simp [Ne.symm hne2]), ih hnd.2 hm]
        omega

theorem range_shift_perm (T c0 : Nat) :
    ((List.range T).map (fun j => (c0 + j) % T)).Perm (List.range T) := by
  have heq : (List.range T).map (fun j => (c0 + j) % T) = (List.range T).rotate c0 := by
    apply List.ext_getElem
    · simp [List.length_rotate]
    · intro n h1 h2
      rw [List.getElem_map, List.getElem_range, List.getElem_rotate, List.getElem_range]
      simp [Nat.add_comm]
  rw [heq]
  exact List.rotate_perm _ _

end balancer

open balancer in
/-- C1 (amended).  With every weight at least 1 and distinct instances:
the first `total = Σ weight` selections of a fresh cursor are exactly the
block sequence (each instance `weight` times, whole contiguous blocks in
snapshot order); over ANY window of `total` consecutive selections each
instance is picked exactly `weight` times (the blocks may be split by
the window boundary — see the counterexample); and when some weight is
below 1, `Select` under WeightedRoundRobin coincides with RoundRobin on
the same per-service cursor. -/
theorem c1_weightedRoundRobin_distribution (insts : List Instance) (rand : Nat)
    (req : Option Request)
    (hw : ∀ i ∈ insts, 1 ≤ i.weight) (hnd : insts.Nodup) (hne : insts ≠ [])
    (hsum : weightTotal insts < 2 ^ 63) :
    (SelectN .weightedRoundRobin rand insts req 0 (weightTotal insts).toNat
        = wBlocks insts)
    ∧ (∀ c0, c0 + (weightTotal insts).toNat ≤ 2 ^ 63 →
        ∀ i ∈ insts,
          (SelectN .weightedRoundRobin rand insts req c0
              (weightTotal insts).toNat).count (some i)
            = i.weight.toNat)
    ∧ (∀ (insts2 : List Instance) (c2 : Nat), hasValidWeights insts2 = false →
        Select .weightedRoundRobin c2 rand insts2 req
          = Select .roundRobin c2 rand insts2 req) := by
  have hpos := weightTotal_pos insts hw hne
  refine ⟨?_, ?_, ?_⟩
  · rw [selectN_wrr_trace insts rand req hw hne hsum _ 0 (by omega)]
    rw [← wpick_range_blocks insts hw]
    apply List.map_congr_left
    intro j hj
    rw [List.mem_range] at hj
    have harg : (0 + j) % (weightTotal insts).toNat = j := by
      rw [Nat.zero_add]
      exact Nat.mod_eq_of_lt hj
    rw [harg]
  · intro c0 hc0 i hi
    rw [selectN_wrr_trace insts rand req hw hne hsum _ c0 hc0]
    have hmm : (List.range (weightTotal insts).toNat).map
          (fun j => wpick insts (((c0 + j) % (weightTotal insts).toNat : Nat) : Int))
        = ((List.range (weightTotal insts).toNat).map
            (fun j => (c0 + j) % (weightTotal insts).toNat)).map
            (fun s => wpick insts ((s : Nat) : Int)) := by
      rw [List.map_map]
      rfl
    rw [hmm]
    have hperm := (range_shift_perm (weightTotal insts).toNat c0).map
      (fun s => wpick insts ((s : Nat) : Int))
    have hcnt : ∀ (l1 l2 : List (Option Instance)), l1.Perm l2 →
        l1.count (some i) = l2.count (some i) :=
      fun l1 l2 hp => hp.countP_eq (fun x => x == some i)
    rw [hcnt _ _ hperm]
    rw [wpick_range_blocks insts hw]
    exact count_wBlocks_of_mem insts hnd i hi
  · intro insts2 c2 hvw
    simp [Select, hvw]

open balancer in
/-- C1 counterexample.  Weights 2 and 1, total 3: the window of three
consecutive selections starting after one call (cursor 1) — reachable on
a fresh balancer — yields `a, b, a`: instance `a` is picked twice but
not as one contiguous block, contradicting the claim's "whole contiguous
blocks per instance in sequence order" over an arbitrary window. -/
theorem c1_counterexample_window :
    SelectN .weightedRoundRobin 0
        [{ id := r"a", addr := r"http://a", weight := 2 },
         { id := r"b", addr := r"http://b", weight := 1 }] none 1 3
      = [some { id := r"a", addr := r"http://a", weight := 2 },
         some { id := r"b", addr := r"http://b", weight := 1 },
         some { id := r"a", addr := r"http://a", weight := 2 }]
    ∧ SelectN .weightedRoundRobin 0
        [{ id := r"a", addr := r"http://a", weight := 2 },
         { id := r"b", addr := r"http://b", weight := 1 }] none 1 3
      ≠ wBlocks
        [{ id := r"a", addr := r"http://a", weight := 2 },
         { id := r"b", addr := r"http://b", weight := 1 }] :=
  ⟨by decide, by decide⟩

open balancer in
theorem c1_witness :
    (SelectN .weightedRoundRobin 0
        [{ id := r"a", addr := r"http://a", weight := 2 },
         { id := r"b", addr := r"http://b", weight := 1 }] none 0 3
      = wBlocks
        [{ id := r"a", addr := r"http://a", weight := 2 },
         { id := r"b", addr := r"http://b", weight := 1 }])
    ∧ (SelectN .weightedRoundRobin 0
        [{ id := r"a", addr := r"http://a", weight := 2 },
         { id := r"b", addr := r"http://b", weight := 1 }] none 5 3).count
        (some { id := r"a", addr := r"http://a", weight := 2 }) = 2
    ∧ Select .weightedRoundRobin 7 0
        [{ id := r"z", addr := r"http://z", weight := 0 }] none
      = Select .roundRobin 7 0
        [{ id := r"z", addr := r"http://z", weight := 0 }] none := by
  have h := c1_weightedRoundRobin_distribution
    [{ id := r"a", addr := r"http://a", weight := 2 },
     { id := r"b", addr := r"http://b", weight := 1 }] 0 none
    (by decide) (by decide) (by decide) (by decide)
  exact ⟨h.1, h.2.1 5 (by decide)
      { id := r"a", addr := r"http://a", weight := 2 } (by decide),
    h.2.2 [{ id := r"z", addr := r"http://z", weight := 0 }] 7 (by decide)⟩

end Kerberos
